import Mathlib

/-!
Verification of the qmemory knowledge-graph memory server (src/index.ts).

The repository contains two near-duplicate implementations of a
`KnowledgeGraphManager` backed by SQLite: a vector-enabled one (sqlite-vec +
fastembed) and a lexical-only one.  Both store entities in a table
`entities(id, name UNIQUE, entityType, observations)` where the observation
list is persisted as a single string joined with the delimiter `"|||"`, and
relations in a table `relations(from_entity, to_entity, relationType)` with a
UNIQUE constraint on the triple.  The vector-enabled variant additionally
keeps a vector table `entities_vec(entity_id, embedding)`.

This file shallowly embeds the manager's operations.  JavaScript strings are
modelled as `List Char`; the SQLite tables as Lean lists in row (rowid)
order; `INSERT OR IGNORE`, `UPDATE ... WHERE`, `DELETE ... WHERE` and
`SELECT ... WHERE` become the corresponding list operations in table order.
The embedding model is an external black box (spec section 4.2): embeddings
are modelled as opaque handles and vector search takes the induced
distance-to-query function as a parameter.  Background (fire-and-forget)
embedding tasks touch only the embedding column and the vector table, never
the primary rows modelled here; their effects are not modelled (spec
section 5 makes them asynchronous and unobservable for primary data).
-/

namespace QMemory

/-- JavaScript strings, modelled as lists of characters. -/
abbrev Str := List Char

/-- The observation delimiter `"|||"` used by the source
(`entity.observations.join("|||")` / `e.observations.split("|||")`). -/
def pipes : Str := ['|', '|', '|']

/-- Left-to-right scan splitting on non-overlapping occurrences of `"|||"`,
exactly the semantics of JavaScript `String.prototype.split("|||")`.
`acc` holds the current piece in reverse. -/
def splitGo (acc : Str) : Str → List Str
  | [] => [acc.reverse]
  | '|' :: '|' :: '|' :: rest => acc.reverse :: splitGo [] rest
  | c :: rest => splitGo (c :: acc) rest

/-- JavaScript `s.split("|||")` for nonempty `s`. -/
def splitOnPipes (s : Str) : List Str := splitGo [] s

/-- JavaScript `xs.join("|||")`, the encoding used when observation lists are
written to the `observations` column. -/
def encodeObs : List Str → Str
  | [] => []
  | [x] => x
  | x :: y :: rest => x ++ pipes ++ encodeObs (y :: rest)

/-- Decoding of the `observations` column, from the source pattern
`e.observations ? e.observations.split("|||") : []` (the empty string is
falsy in JavaScript and yields the empty list). -/
def decodeObs (s : Str) : List Str := if s.isEmpty then [] else splitOnPipes s

/-! ## Data model

Rows of the SQLite tables, in table (rowid) order.  The `embedding` column of
`entities` is written (placeholder or background update) but never read by any
modelled operation, so it is omitted.  Vector-table embeddings are opaque
handles (the embedding model is an external black box). -/

/-- An entity as exchanged with callers (interface `Entity` in the source). -/
structure Entity where
  name : Str
  entityType : Str
  observations : List Str
deriving DecidableEq

/-- A relation: both a row of the `relations` table and the caller-facing
triple (interface `Relation`; columns `from_entity`, `to_entity`,
`relationType`).  The unused `id` column is omitted. -/
structure Relation where
  fromEntity : Str
  toEntity : Str
  relationType : Str
deriving DecidableEq

/-- A row of the `entities` table: `id` (INTEGER PRIMARY KEY AUTOINCREMENT),
`name`, `entityType`, and the `"|||"`-joined `observations` string. -/
structure EntityRow where
  id : Nat
  name : Str
  entityType : Str
  observations : Str
deriving DecidableEq

/-- A row of the `entities_vec` virtual table: the owning entity id and the
stored embedding, modelled as an opaque handle. -/
structure VecRow where
  entity_id : Nat
  embedding : Nat
deriving DecidableEq

/-- The database state: the three tables in row order plus the AUTOINCREMENT
counter for `entities`. -/
structure DB where
  entities : List EntityRow
  relations : List Relation
  vec : List VecRow
  nextId : Nat
deriving DecidableEq

/-- A freshly initialized database (SQLite rowids start at 1). -/
def emptyDB : DB := ⟨[], [], [], 1⟩

/-- The `KnowledgeGraph` result shape returned by every read operation. -/
structure KnowledgeGraph where
  entities : List Entity
  relations : List Relation
deriving DecidableEq

/-- The empty graph literal the source returns from its failure and
empty-result paths. -/
def emptyGraph : KnowledgeGraph := ⟨[], []⟩

/-- Materialize an entity row for a caller: split the stored observation
string (`observations ? observations.split("|||") : []`). -/
def decodeEntityRow (r : EntityRow) : Entity :=
  ⟨r.name, r.entityType, decodeObs r.observations⟩

/-! ## CRUD operations of `KnowledgeGraphManager` -/

/-- `createEntities` (src/index.ts): for each input entity, `INSERT OR IGNORE`
a row with the `"|||"`-joined observations; rows whose name already exists are
ignored (`result.changes = 0`) and excluded from the returned list.  The
background embedding task only fills the embedding column and the vector
table and is not modelled. -/
def createEntities (db : DB) : List Entity → DB × List Entity
  | [] => (db, [])
  | e :: rest =>
    if db.entities.any (fun r => r.name == e.name) then
      createEntities db rest
    else
      let db' : DB :=
        { db with
          entities :=
            db.entities ++ [⟨db.nextId, e.name, e.entityType, encodeObs e.observations⟩],
          nextId := db.nextId + 1 }
      let res := createEntities db' rest
      (res.1, e :: res.2)

/-- `createRelations`: `INSERT OR IGNORE` on the UNIQUE(from, to, type)
triple; duplicates are skipped and excluded from the returned list. -/
def createRelations (db : DB) : List Relation → DB × List Relation
  | [] => (db, [])
  | r :: rest =>
    if db.relations.any (fun x => x == r) then
      createRelations db rest
    else
      let db' : DB := { db with relations := db.relations ++ [r] }
      let res := createRelations db' rest
      (res.1, r :: res.2)

/-- One entry of an `addObservations` request. -/
structure ObsInput where
  entityName : Str
  contents : List Str
deriving DecidableEq

/-- One entry of an `addObservations` response. -/
structure ObsResult where
  entityName : Str
  addedObservations : List Str
deriving DecidableEq

/-- `UPDATE entities SET observations = ? WHERE name = ?`. -/
def dbUpdateObs (db : DB) (name : Str) (obs : Str) : DB :=
  { db with
    entities := db.entities.map fun r =>
      if r.name == name then { r with observations := obs } else r }

/-- `addObservations` of the vector-enabled variant: the source maps an async
closure over the entries and awaits `Promise.all`.  Each closure body is
synchronous up to its return, so every entry executes in input order: look up
the entity, throw (reject) if absent, otherwise filter the contents against
the stored observations and persist the merged join when something is new.
`Promise.all` rejects with the earliest-index rejection, so the call returns
the first missing entity as an error while the writes of all existing-entity
entries remain applied.  (The lexical-only variant differs only in that
entries after the first missing one do not execute.)  Background re-embedding
is not modelled. -/
def addObservations (db : DB) : List ObsInput → DB × Except Str (List ObsResult)
  | [] => (db, Except.ok [])
  | o :: rest =>
    match db.entities.find? (fun r => r.name == o.entityName) with
    | none =>
      let res := addObservations db rest
      (res.1, Except.error o.entityName)
    | some row =>
      let existing := decodeObs row.observations
      let newObs := o.contents.filter (fun c => !(existing.contains c))
      let db1 := if newObs.isEmpty then db
                 else dbUpdateObs db o.entityName (encodeObs (existing ++ newObs))
      let res := addObservations db1 rest
      (res.1,
       match res.2 with
       | Except.error e => Except.error e
       | Except.ok results => Except.ok (⟨o.entityName, newObs⟩ :: results))

/-- One name of a `deleteEntities` request: delete the vector row of the
entity id (when the name resolves), the entity row, and every relation
touching the name. -/
def deleteEntityOne (db : DB) (name : Str) : DB :=
  let vec' := match db.entities.find? (fun r => r.name == name) with
    | some row => db.vec.filter (fun v => !(v.entity_id == row.id))
    | none => db.vec
  { db with
    entities := db.entities.filter (fun r => !(r.name == name)),
    relations :=
      db.relations.filter (fun rel => !(rel.fromEntity == name || rel.toEntity == name)),
    vec := vec' }

/-- `deleteEntities`: process the requested names in order; missing names are
silent no-ops. -/
def deleteEntities (db : DB) (names : List Str) : DB :=
  names.foldl deleteEntityOne db

/-- One entry of a `deleteObservations` request. -/
structure DelInput where
  entityName : Str
  observations : List Str
deriving DecidableEq

/-- One entry of `deleteObservations`: if the entity exists, filter out the
listed strings and persist the re-joined remainder; missing entities are
silently skipped. -/
def deleteObsOne (db : DB) (d : DelInput) : DB :=
  match db.entities.find? (fun r => r.name == d.entityName) with
  | none => db
  | some row =>
    dbUpdateObs db d.entityName
      (encodeObs ((decodeObs row.observations).filter
        (fun o => !(d.observations.contains o))))

/-- `deleteObservations`: entries processed in order. -/
def deleteObservations (db : DB) (ds : List DelInput) : DB :=
  ds.foldl deleteObsOne db

/-- `deleteRelations`: `DELETE FROM relations WHERE from_entity = ? AND
to_entity = ? AND relationType = ?` for each input triple. -/
def deleteRelations (db : DB) (rs : List Relation) : DB :=
  rs.foldl (fun db r => { db with relations := db.relations.filter (fun x => !(x == r)) }) db

/-- `loadGraph` / `readGraph`: materialize the two full-table scans, mapping
the stored rows to the caller shape; the surrounding try/catch turns any
storage error into the empty graph.  The scan outcome (the two `SELECT *`
statements, which may throw inside the `try`) is the argument. -/
def readGraph (scan : Except Unit (List EntityRow × List Relation)) : KnowledgeGraph :=
  match scan with
  | Except.error _ => emptyGraph
  | Except.ok rows => ⟨rows.1.map decodeEntityRow, rows.2⟩

/-- A successful full scan of the database state. -/
def dbScan (db : DB) : Except Unit (List EntityRow × List Relation) :=
  Except.ok (db.entities, db.relations)

/-! ## Vector search (vector-enabled variant)

`searchNodes(query, topK = 5)` embeds the query, asks the vector table for
the nearest rows (`SELECT entity_id, distance FROM entities_vec WHERE
vec_search(embedding, ?) ORDER BY distance LIMIT ?`), and hydrates the
returned ids from the `entities` table.  The embedding of the query and the
vector distance are the external model and sqlite-vec; the composition
"distance between the stored embedding and the query embedding" enters the
model as a function `dist` from embedding handles to distances (modelled as
integers, since only their order matters). -/

/-- The comparison used by `ORDER BY distance`. -/
def distLE (a b : Nat × Int) : Prop := a.2 ≤ b.2

instance : DecidableRel distLE := fun a b => inferInstanceAs (Decidable (a.2 ≤ b.2))

instance : IsTotal (Nat × Int) distLE := ⟨fun a b => le_total a.2 b.2⟩

instance : IsTrans (Nat × Int) distLE := ⟨fun _ _ _ => le_trans⟩

/-- The first SQL query of vector `searchNodes`: every `entities_vec` row
scored by its distance to the query, ordered by distance ascending, limited
to `topK`. -/
def vecTopK (db : DB) (dist : Nat → Int) (topK : Nat) : List (Nat × Int) :=
  (List.insertionSort distLE
    (db.vec.map (fun v => (v.entity_id, dist v.embedding)))).take topK

/-- Vector-mode `searchNodes`: if the nearest-neighbor query returns no rows,
the empty graph; otherwise hydrate the ids (`SELECT ... WHERE id IN (...)`,
a table scan returning rows in table order) and the relations whose two
endpoint names are both among the hydrated entities. -/
def searchNodesVec (db : DB) (dist : Nat → Int) (topK : Nat) : KnowledgeGraph :=
  let similar := vecTopK db dist topK
  if similar.isEmpty then emptyGraph
  else
    let entityIds := similar.map (fun item => item.1)
    let ents := db.entities.filter (fun r => entityIds.contains r.id)
    let entityNames := ents.map (fun e => e.name)
    let rels :=
      if entityNames.isEmpty then []
      else db.relations.filter (fun rel =>
        entityNames.contains rel.fromEntity && entityNames.contains rel.toEntity)
    ⟨ents.map decodeEntityRow, rels⟩

/-! ## Lexical search (lexical-only variant)

`searchNodes(query)` lowercases the query and runs
`SELECT * FROM entities WHERE LOWER(name) LIKE ? OR LOWER(entityType) LIKE ?
OR LOWER(observations) LIKE ?` with the pattern `%query%`.  Note that the
third disjunct matches against the stored `"|||"`-joined observation string,
and that `%` and `_` inside the query act as LIKE wildcards.  SQLite `LOWER`
folds ASCII letters only; JavaScript `toLowerCase` agrees with it on ASCII,
which is the fragment modelled by `Char.toLower`. -/

/-- ASCII lowercasing of a string (SQLite `LOWER` / ASCII fragment of
JavaScript `toLowerCase`). -/
def lowerStr (s : Str) : Str := s.map Char.toLower

/-- SQLite `LIKE` matching of a pattern against a string: `%` matches any
run of characters, `_` any single character, anything else itself.  Both
sides are lowercased before the call, which subsumes the ASCII
case-insensitivity of `LIKE`. -/
def likeMatch : Str → Str → Bool
  | [], [] => true
  | [], _ :: _ => false
  | '%' :: p, [] => likeMatch p []
  | '%' :: p, c :: s => likeMatch p (c :: s) || likeMatch ('%' :: p) s
  | '_' :: _, [] => false
  | '_' :: p, _ :: s => likeMatch p s
  | _ :: _, [] => false
  | a :: p, c :: s => (a == c) && likeMatch p s
termination_by p s => (p.length, s.length)

/-- The row predicate of the lexical search `WHERE` clause with the pattern
`%query%` (the query already lowercased). -/
def lexRowMatch (lowerQuery : Str) (r : EntityRow) : Bool :=
  let pat := '%' :: lowerQuery ++ ['%']
  likeMatch pat (lowerStr r.name) || likeMatch pat (lowerStr r.entityType) ||
    likeMatch pat (lowerStr r.observations)

/-- Lexical-mode `searchNodes`: all matching entities (no limit), plus the
relations whose two endpoints are both among the matched names. -/
def searchNodesLex (db : DB) (query : Str) : KnowledgeGraph :=
  let lowerQuery := lowerStr query
  let ents := db.entities.filter (lexRowMatch lowerQuery)
  let entityNames := ents.map (fun e => e.name)
  let rels :=
    if entityNames.isEmpty then []
    else db.relations.filter (fun rel =>
      entityNames.contains rel.fromEntity && entityNames.contains rel.toEntity)
  ⟨ents.map decodeEntityRow, rels⟩

/-- The lexical match criterion as the spec words it, for comparison with the
implementation: the query is a case-insensitive substring of the entity
name, the entity type, or some single observation string of the entity.
(`l₁ <:+: l₂` is list containment as a contiguous segment.) -/
def specLexMatch (query : Str) (e : Entity) : Prop :=
  lowerStr query <:+: lowerStr e.name ∨ lowerStr query <:+: lowerStr e.entityType ∨
    ∃ s ∈ e.observations, lowerStr query <:+: lowerStr s

instance (query : Str) (e : Entity) : Decidable (specLexMatch query e) := by
  unfold specLexMatch
  infer_instance

/-! ## Auxiliary definitions for the statements -/

/-- Whether an entity row with the given name exists (success of the
`SELECT ... WHERE name = ?` lookup used by the operations). -/
def hasEntity (db : DB) (n : Str) : Bool :=
  db.entities.any (fun r => r.name == n)

/-- The distance from the query of a returned entity, as the spec speaks of
it: resolve the entity name to its row, the row id to its vector-table
entry, and apply the query-distance function (0 if either lookup fails). -/
def entityDist (db : DB) (dist : Nat → Int) (e : Entity) : Int :=
  match db.entities.find? (fun r => r.name == e.name) with
  | none => 0
  | some row =>
    match db.vec.find? (fun v => v.entity_id == row.id) with
    | none => 0
    | some v => dist v.embedding

/-- A mutating operation of the manager, for stating the observation
invariant over operation sequences. -/
inductive Op where
  | create : List Entity → Op
  | addObs : List ObsInput → Op
  | delObs : List DelInput → Op

/-- Apply an operation to the database state (for `addObs` this is the state
after the call, whether or not the call reported an error). -/
def applyOp (db : DB) : Op → DB
  | Op.create es => (createEntities db es).1
  | Op.addObs os => (addObservations db os).1
  | Op.delObs ds => deleteObservations db ds

/-- Inputs under which the duplicate-free invariant is preserved: each single
observation list supplied to `createEntities` or `addObservations` is itself
duplicate-free, and no supplied observation contains a pipe character (so the
stored `"|||"` encoding cannot manufacture duplicates). -/
def goodOp : Op → Prop
  | Op.create es => ∀ e ∈ es, e.observations.Nodup ∧ ∀ s ∈ e.observations, '|' ∉ s
  | Op.addObs os => ∀ o ∈ os, o.contents.Nodup ∧ ∀ s ∈ o.contents, '|' ∉ s
  | Op.delObs _ => True

instance : DecidablePred goodOp := fun op => by
  cases op <;> (unfold goodOp; infer_instance)

/-- The invariant: every stored entity decodes to a duplicate-free, pipe-free
observation sequence. -/
def ObsInvariant (db : DB) : Prop :=
  ∀ row ∈ db.entities,
    (decodeObs row.observations).Nodup ∧ ∀ s ∈ decodeObs row.observations, '|' ∉ s

/-! ## Concrete fixtures for counterexamples and witnesses -/

/-- A store with one entity named A carrying no observations. -/
def dbA : DB := (createEntities emptyDB [⟨"A".toList, "t".toList, []⟩]).1

/-- A store with entities A (id 1) and B (id 2), both embedded. -/
def vdb : DB :=
  ⟨[⟨1, "A".toList, "t".toList, []⟩, ⟨2, "B".toList, "t".toList, []⟩],
   [], [⟨1, 10⟩, ⟨2, 20⟩], 3⟩

/-- A query-distance function under which B's embedding (handle 20) is
nearer than A's (handle 10). -/
def vdist : Nat → Int := fun h => if h == 20 then 1 else 2

/-- A store with one entity whose observation list is ["a", "b"], stored as
the joined string "a|||b". -/
def ldb : DB := (createEntities emptyDB [⟨"n".toList, "t".toList, ["a".toList, "b".toList]⟩]).1

/-! ## Properties of the observation encoding -/

theorem splitGo_nil (acc : Str) : splitGo acc [] = [acc.reverse] := rfl

theorem splitGo_pipes (acc rest : Str) :
    splitGo acc ('|' :: '|' :: '|' :: rest) = acc.reverse :: splitGo [] rest := rfl

theorem splitGo_cons (acc : Str) (c : Char) (rest : Str)
    (h : ∀ r, c = '|' → rest ≠ '|' :: '|' :: r) :
    splitGo acc (c :: rest) = splitGo (c :: acc) rest := by
  rw [splitGo.eq_def]
  split
  · rename_i heq; cases heq
  · rename_i heq; injection heq with h1 h2
    exact absurd h2 (h _ h1)
  · rename_i heq; injection heq with h1 h2; subst h1; subst h2; rfl

theorem splitGo_cons_ne (acc : Str) (c : Char) (rest : Str) (h : c ≠ '|') :
    splitGo acc (c :: rest) = splitGo (c :: acc) rest :=
  splitGo_cons acc c rest (fun _ hceq _ => h hceq)

theorem splitGo_ne_nil (acc : Str) (s : Str) : splitGo acc s ≠ [] := by
  induction acc, s using splitGo.induct with
  | case1 => simp [splitGo_nil]
  | case2 acc rest ih => simp [splitGo_pipes]
  | case3 acc c rest hne ih =>
    rw [splitGo_cons _ _ _ hne]
    exact ih

theorem splitGo_noPipe (s : Str) (h : '|' ∉ s) (acc : Str) :
    splitGo acc s = [acc.reverse ++ s] := by
  induction s generalizing acc with
  | nil => simp [splitGo_nil]
  | cons c rest ih =>
    have hc : c ≠ '|' := fun hc => h (hc ▸ List.mem_cons_self c rest)
    rw [splitGo_cons_ne _ _ _ hc, ih (fun hm => h (List.mem_cons_of_mem c hm))]
    simp

theorem splitGo_append_pipes (x : Str) (hx : '|' ∉ x) (t : Str) (acc : Str) :
    splitGo acc (x ++ pipes ++ t) = (acc.reverse ++ x) :: splitGo [] t := by
  induction x generalizing acc with
  | nil => simp [pipes, splitGo_pipes]
  | cons c rest ih =>
    have hc : c ≠ '|' := fun hc => hx (hc ▸ List.mem_cons_self c rest)
    have : c :: rest ++ pipes ++ t = c :: (rest ++ pipes ++ t) := by simp
    rw [this, splitGo_cons_ne _ _ _ hc, ih (fun hm => hx (List.mem_cons_of_mem c hm))]
    simp

theorem splitOnPipes_encodeObs (xs : List Str) (h : ∀ s ∈ xs, '|' ∉ s)
    (hne : xs ≠ []) : splitOnPipes (encodeObs xs) = xs := by
  induction xs with
  | nil => exact absurd rfl hne
  | cons x rest ih =>
    cases rest with
    | nil =>
      show splitGo [] x = [x]
      rw [splitGo_noPipe x (h x (List.mem_cons_self x [])) []]
      simp
    | cons y rest2 =>
      show splitGo [] (x ++ pipes ++ encodeObs (y :: rest2)) = x :: y :: rest2
      rw [splitGo_append_pipes x (h x (List.mem_cons_self _ _)) _ []]
      have := ih (fun s hs => h s (List.mem_cons_of_mem x hs)) (by simp)
      simpa [splitOnPipes] using this

theorem encodeObs_cons₂_ne_nil (x y : Str) (rest : List Str) :
    encodeObs (x :: y :: rest) ≠ [] := by
  show x ++ pipes ++ encodeObs (y :: rest) ≠ []
  simp [pipes]

/-- The round trip decode ∘ encode is the identity on observation lists whose
strings contain no pipe character, other than the singleton empty string. -/
theorem decodeObs_encodeObs (xs : List Str) (h : ∀ s ∈ xs, '|' ∉ s)
    (h2 : xs ≠ [[]]) : decodeObs (encodeObs xs) = xs := by
  match xs with
  | [] => rfl
  | [x] =>
    have hx : x ≠ [] := fun hx => h2 (by rw [hx])
    show decodeObs x = [x]
    rw [decodeObs, if_neg (by simpa using hx)]
    have := splitOnPipes_encodeObs [x] h (by simp)
    simpa using this
  | x :: y :: rest =>
    rw [decodeObs, if_neg (by simpa using encodeObs_cons₂_ne_nil x y rest)]
    exact splitOnPipes_encodeObs _ h (by simp)

theorem encodeObs_splitGo (s : Str) (acc : Str) :
    encodeObs (splitGo acc s) = acc.reverse ++ s := by
  induction acc, s using splitGo.induct with
  | case1 acc => simp [splitGo_nil, encodeObs]
  | case2 acc rest ih =>
    rw [splitGo_pipes]
    rcases hrec : splitGo [] rest with _ | ⟨z, zs⟩
    · exact absurd hrec (splitGo_ne_nil [] rest)
    · show encodeObs (acc.reverse :: z :: zs) = _
      rw [encodeObs]
      rw [hrec] at ih
      simp [ih, pipes]
  | case3 acc c rest hne ih =>
    rw [splitGo_cons _ _ _ hne, ih]
    simp

/-- The opposite round trip encode ∘ decode is always the identity: joining
the split pieces with the delimiter reconstructs the stored string. -/
theorem encodeObs_decodeObs (s : Str) : encodeObs (decodeObs s) = s := by
  rw [decodeObs]
  split
  · simp_all [encodeObs]
  · simpa using encodeObs_splitGo s []

/-- Decoded lists built from duplicate-free pipe-free inputs are duplicate-free
and pipe-free (the singleton empty list collapses to the empty list). -/
theorem decodeObs_encodeObs_nodup (l : List Str) (hnd : l.Nodup)
    (hp : ∀ s ∈ l, '|' ∉ s) :
    (decodeObs (encodeObs l)).Nodup ∧ ∀ s ∈ decodeObs (encodeObs l), '|' ∉ s := by
  by_cases h2 : l = [[]]
  · subst h2
    simp [decodeObs, encodeObs]
  · rw [decodeObs_encodeObs l hp h2]
    exact ⟨hnd, hp⟩


/-! ## C9: fail-safe full-graph read -/

/-- C9: whenever the underlying storage errors during the full-graph scan,
`readGraph` returns the empty graph (neither propagating nor partial); on a
successful scan it returns every stored entity (observations decoded) and
every stored relation. -/
theorem c9_readGraph_fail_safe :
    (∀ e : Unit, readGraph (Except.error e) = emptyGraph) ∧
    (∀ db : DB, readGraph (dbScan db)
      = ⟨db.entities.map decodeEntityRow, db.relations⟩) :=
  ⟨fun _ => rfl, fun _ => rfl⟩

/-! ## C10: relation operations leave the entity store untouched -/

theorem createRelations_frame (rs : List Relation) : ∀ db : DB,
    (createRelations db rs).1.entities = db.entities ∧
    (createRelations db rs).1.vec = db.vec := by
  induction rs with
  | nil => intro db; exact ⟨rfl, rfl⟩
  | cons r rest ih =>
    intro db
    rw [createRelations]
    split
    · exact ih db
    · simpa using ih _

theorem deleteRelations_frame (rs : List Relation) : ∀ db : DB,
    (deleteRelations db rs).entities = db.entities ∧
    (deleteRelations db rs).vec = db.vec := by
  induction rs with
  | nil => intro db; exact ⟨rfl, rfl⟩
  | cons r rest ih =>
    intro db
    show (deleteRelations _ rest).entities = _ ∧ (deleteRelations _ rest).vec = _
    simpa using ih _

/-- C10: `createRelations` and `deleteRelations` never modify the entity
store: the entity rows (hence every entity's name, type and stored
observation string) and the vector table are unchanged; only the relations
table can change. -/
theorem relations_ops_entity_frame (db : DB) (rs : List Relation) :
    (createRelations db rs).1.entities = db.entities ∧
    (createRelations db rs).1.vec = db.vec ∧
    (deleteRelations db rs).entities = db.entities ∧
    (deleteRelations db rs).vec = db.vec :=
  ⟨(createRelations_frame rs db).1, (createRelations_frame rs db).2,
   (deleteRelations_frame rs db).1, (deleteRelations_frame rs db).2⟩

/-! ## C5: idempotence of entity creation -/

theorem any_name_eq_false {db : DB} {e : Entity}
    (hfresh : ∀ r ∈ db.entities, r.name ≠ e.name) :
    db.entities.any (fun r => r.name == e.name) = false := by
  rw [Bool.eq_false_iff]
  intro hc
  rw [List.any_eq_true] at hc
  obtain ⟨r, hr, hrb⟩ := hc
  exact hfresh r hr (by simpa using hrb)

/-- C5: creating the same entity twice from a store where its name is free
leaves exactly one row with that name; the first call returns `[e]` and the
second returns `[]` and is a complete no-op on the state. -/
theorem createEntities_idempotent (db : DB) (e : Entity)
    (hfresh : ∀ r ∈ db.entities, r.name ≠ e.name) :
    (createEntities db [e]).2 = [e] ∧
    (createEntities (createEntities db [e]).1 [e]).2 = [] ∧
    (createEntities (createEntities db [e]).1 [e]).1 = (createEntities db [e]).1 ∧
    ((createEntities (createEntities db [e]).1 [e]).1.entities.filter
      (fun r => r.name == e.name)).length = 1 := by
  have hany := any_name_eq_false hfresh
  have h1 : createEntities db [e]
      = ({ db with
            entities := db.entities
              ++ [⟨db.nextId, e.name, e.entityType, encodeObs e.observations⟩],
            nextId := db.nextId + 1 }, [e]) := by
    simp [createEntities, hany]
  rw [h1]
  have h2 : ∀ dbx : DB, dbx.entities.any (fun r => r.name == e.name) = true →
      createEntities dbx [e] = (dbx, []) := by
    intro dbx hx
    simp [createEntities, hx]
  have hany2 : (db.entities
      ++ [(⟨db.nextId, e.name, e.entityType, encodeObs e.observations⟩ : EntityRow)]).any
        (fun r => r.name == e.name) = true := by
    simp [List.any_append]
  rw [h2 _ hany2]
  refine ⟨rfl, rfl, rfl, ?_⟩
  have hfe : db.entities.filter (fun r => r.name == e.name) = [] := by
    rw [List.filter_eq_nil_iff]
    intro r hr
    simpa using hfresh r hr
  simp [List.filter_append, hfe]

/-- Witness for C5 at a concrete input. -/
theorem createEntities_idempotent_witness :
    (∀ r ∈ emptyDB.entities, r.name ≠ "A".toList) ∧
    ((createEntities emptyDB [⟨"A".toList, "t".toList, []⟩]).2
        = [⟨"A".toList, "t".toList, []⟩] ∧
      (createEntities (createEntities emptyDB [⟨"A".toList, "t".toList, []⟩]).1
          [⟨"A".toList, "t".toList, []⟩]).2 = [] ∧
      (createEntities (createEntities emptyDB [⟨"A".toList, "t".toList, []⟩]).1
          [⟨"A".toList, "t".toList, []⟩]).1
        = (createEntities emptyDB [⟨"A".toList, "t".toList, []⟩]).1 ∧
      ((createEntities (createEntities emptyDB [⟨"A".toList, "t".toList, []⟩]).1
          [⟨"A".toList, "t".toList, []⟩]).1.entities.filter
        (fun r => r.name == "A".toList)).length = 1) :=
  ⟨by decide, createEntities_idempotent emptyDB ⟨"A".toList, "t".toList, []⟩ (by decide)⟩

/-! ## C4: round-trip fidelity of observation storage -/

/-- C4 counterexample: an entity created with the single observation
"a|||b" reads back with observation list ["a", "b"], not the supplied list —
the internal `"|||"` encoding collides with legitimate content. -/
theorem roundtrip_counterexample :
    (readGraph (dbScan (createEntities emptyDB
      [⟨"A".toList, "t".toList, ["a|||b".toList]⟩]).1)).entities
      = [⟨"A".toList, "t".toList, ["a".toList, "b".toList]⟩] ∧
    (["a".toList, "b".toList] : List Str) ≠ ["a|||b".toList] :=
  ⟨by decide, by decide⟩

/-- C4 amended: round-trip fidelity holds for a freshly created entity
provided no supplied observation contains the pipe character and the
observation list is not the singleton empty string; lists containing the
delimiter (or the singleton empty string) are mangled by the encoding. -/
theorem roundtrip_amended (db : DB) (e : Entity)
    (hfresh : ∀ r ∈ db.entities, r.name ≠ e.name)
    (hp : ∀ s ∈ e.observations, '|' ∉ s)
    (hne : e.observations ≠ [[]]) :
    e ∈ (readGraph (dbScan (createEntities db [e]).1)).entities := by
  have hany := any_name_eq_false hfresh
  have hdec : decodeEntityRow ⟨db.nextId, e.name, e.entityType, encodeObs e.observations⟩ = e := by
    simp [decodeEntityRow, decodeObs_encodeObs e.observations hp hne]
  simp only [createEntities, hany, Bool.false_eq_true, if_false, readGraph, dbScan,
    List.map_append]
  exact List.mem_append_right _ (by simp [hdec])

/-- Witness for the amended C4 at a concrete input. -/
theorem roundtrip_amended_witness :
    (∀ r ∈ emptyDB.entities, r.name ≠ "A".toList) ∧
    (∀ s ∈ ["x".toList, "".toList], '|' ∉ s) ∧
    (["x".toList, "".toList] : List Str) ≠ [[]] ∧
    (⟨"A".toList, "t".toList, ["x".toList, "".toList]⟩ : Entity)
      ∈ (readGraph (dbScan (createEntities emptyDB
          [⟨"A".toList, "t".toList, ["x".toList, "".toList]⟩]).1)).entities :=
  ⟨by decide, by decide, by decide,
   roundtrip_amended emptyDB ⟨"A".toList, "t".toList, ["x".toList, "".toList]⟩
     (by decide) (by decide) (by decide)⟩

/-! ## C7: cascading entity deletion -/

theorem deleteEntities_entities (names : List Str) : ∀ db : DB,
    (deleteEntities db names).entities
      = db.entities.filter (fun r => !(names.contains r.name)) := by
  induction names with
  | nil => intro db; simp [deleteEntities]
  | cons n rest ih =>
    intro db
    show (deleteEntities (deleteEntityOne db n) rest).entities = _
    rw [ih]
    show ((db.entities.filter _).filter _) = _
    rw [List.filter_filter]
    apply List.filter_congr
    intro r _
    rw [List.contains_cons]
    cases hc : r.name == n <;> cases hr2 : rest.contains r.name <;> simp [hc, hr2]

theorem deleteEntities_relations (names : List Str) : ∀ db : DB,
    (deleteEntities db names).relations
      = db.relations.filter (fun rel =>
          !(names.contains rel.fromEntity) && !(names.contains rel.toEntity)) := by
  induction names with
  | nil => intro db; simp [deleteEntities]
  | cons n rest ih =>
    intro db
    show (deleteEntities (deleteEntityOne db n) rest).relations = _
    rw [ih]
    show ((db.relations.filter _).filter _) = _
    rw [List.filter_filter]
    apply List.filter_congr
    intro rel _
    rw [List.contains_cons, List.contains_cons]
    cases hf : rel.fromEntity == n <;> cases ht : rel.toEntity == n <;>
      cases hf2 : rest.contains rel.fromEntity <;> cases ht2 : rest.contains rel.toEntity <;>
      simp [hf, ht, hf2, ht2]

theorem deleteEntities_vec_sublist (names : List Str) : ∀ db : DB,
    (deleteEntities db names).vec.Sublist db.vec := by
  induction names with
  | nil => intro db; simp [deleteEntities]
  | cons n rest ih =>
    intro db
    refine List.Sublist.trans (ih (deleteEntityOne db n)) ?_
    show (match db.entities.find? (fun (r : EntityRow) => r.name == n) with
      | some row => db.vec.filter (fun (v : VecRow) => !(v.entity_id == row.id))
      | none => db.vec).Sublist db.vec
    split
    · exact List.filter_sublist _
    · exact List.Sublist.refl _

theorem deleteEntities_vec_removed (names : List Str) : ∀ db : DB,
    (db.entities.map EntityRow.name).Nodup →
    ∀ row ∈ db.entities, row.name ∈ names →
    ∀ v ∈ (deleteEntities db names).vec, v.entity_id ≠ row.id := by
  induction names with
  | nil => intro db _ row _ hmem; cases hmem
  | cons n rest ih =>
    intro db hnodup row hrow hmem v hv
    show v.entity_id ≠ row.id
    by_cases hname : row.name = n
    · -- the first step finds exactly this row (names are unique) and deletes
      -- its vector entry; the remaining steps only shrink the vector table
      have hsome : (db.entities.find? (fun r => r.name == n)).isSome := by
        rw [List.find?_isSome]
        exact ⟨row, hrow, by simp [hname]⟩
      obtain ⟨row2, hfind⟩ := Option.isSome_iff_exists.1 hsome
      have hrow2mem : row2 ∈ db.entities := List.mem_of_find?_eq_some hfind
      have hrow2name : row2.name = n := by
        have := List.find?_some hfind
        simpa using this
      have hrow2 : row2 = row :=
        List.inj_on_of_nodup_map hnodup hrow2mem hrow (by rw [hrow2name, hname])
      have hv1 : v ∈ (deleteEntityOne db n).vec :=
        (deleteEntities_vec_sublist rest (deleteEntityOne db n)).subset hv
      have : (deleteEntityOne db n).vec
          = db.vec.filter (fun w => !(w.entity_id == row.id)) := by
        show (match db.entities.find? (fun (r : EntityRow) => r.name == n) with
          | some r0 => db.vec.filter (fun (w : VecRow) => !(w.entity_id == r0.id))
          | none => db.vec) = _
        rw [hfind, hrow2]
      rw [this] at hv1
      have := (List.mem_filter.1 hv1).2
      simpa using this
    · have hrest : row.name ∈ rest := by
        cases hmem with
        | head => exact absurd rfl hname
        | tail _ h => exact h
      have hrow1 : row ∈ (deleteEntityOne db n).entities := by
        show row ∈ db.entities.filter _
        rw [List.mem_filter]
        exact ⟨hrow, by simp [hname]⟩
      have hnodup1 : ((deleteEntityOne db n).entities.map EntityRow.name).Nodup := by
        have hsub : (deleteEntityOne db n).entities.Sublist db.entities :=
          List.filter_sublist _
        exact (hsub.map EntityRow.name).nodup hnodup
      exact ih (deleteEntityOne db n) hnodup1 row hrow1 hrest v hv

/-- C7: `deleteEntities` removes exactly the rows with the listed names and
every relation touching a listed name (names that match nothing are silent
no-ops, nothing else is touched), removes the vector-table record of every
deleted entity, and a subsequent `readGraph` contains neither the deleted
entities nor any relation touching them. -/
theorem deleteEntities_cascade (db : DB) (names : List Str)
    (hnodup : (db.entities.map EntityRow.name).Nodup) :
    (deleteEntities db names).entities
      = db.entities.filter (fun r => !(names.contains r.name)) ∧
    (deleteEntities db names).relations
      = db.relations.filter (fun rel =>
          !(names.contains rel.fromEntity) && !(names.contains rel.toEntity)) ∧
    (∀ row ∈ db.entities, row.name ∈ names →
      ∀ v ∈ (deleteEntities db names).vec, v.entity_id ≠ row.id) ∧
    (readGraph (dbScan (deleteEntities db names))).entities
      = (db.entities.filter (fun r => !(names.contains r.name))).map decodeEntityRow ∧
    (readGraph (dbScan (deleteEntities db names))).relations
      = db.relations.filter (fun rel =>
          !(names.contains rel.fromEntity) && !(names.contains rel.toEntity)) := by
  refine ⟨deleteEntities_entities names db, deleteEntities_relations names db,
    deleteEntities_vec_removed names db hnodup, ?_, ?_⟩
  · show (deleteEntities db names).entities.map decodeEntityRow = _
    rw [deleteEntities_entities names db]
  · show (deleteEntities db names).relations = _
    rw [deleteEntities_relations names db]

/-- Witness for C7 at a concrete input: deleting A from a two-entity store
with one A-to-B relation. -/
theorem deleteEntities_cascade_witness :
    ((vdb.entities.map EntityRow.name).Nodup) ∧
    ((deleteEntities vdb ["A".toList]).entities
        = vdb.entities.filter (fun r => !(["A".toList].contains r.name)) ∧
      (deleteEntities vdb ["A".toList]).relations
        = vdb.relations.filter (fun rel =>
            !(["A".toList].contains rel.fromEntity) && !(["A".toList].contains rel.toEntity)) ∧
      (∀ row ∈ vdb.entities, row.name ∈ ["A".toList] →
        ∀ v ∈ (deleteEntities vdb ["A".toList]).vec, v.entity_id ≠ row.id) ∧
      (readGraph (dbScan (deleteEntities vdb ["A".toList]))).entities
        = (vdb.entities.filter (fun r => !(["A".toList].contains r.name))).map decodeEntityRow ∧
      (readGraph (dbScan (deleteEntities vdb ["A".toList]))).relations
        = vdb.relations.filter (fun rel =>
            !(["A".toList].contains rel.fromEntity)
              && !(["A".toList].contains rel.toEntity))) :=
  ⟨by decide, deleteEntities_cascade vdb ["A".toList] (by decide)⟩

/-! ## Unfolding lemmas for `addObservations` -/

theorem addObservations_nil (db : DB) : addObservations db [] = (db, Except.ok []) := rfl

theorem addObservations_cons_none (db : DB) (o : ObsInput) (rest : List ObsInput)
    (hfind : db.entities.find? (fun (r : EntityRow) => r.name == o.entityName) = none) :
    addObservations db (o :: rest)
      = ((addObservations db rest).1, Except.error o.entityName) := by
  simp only [addObservations]
  rw [hfind]

theorem addObservations_cons_some (db : DB) (o : ObsInput) (rest : List ObsInput)
    (row : EntityRow)
    (hfind : db.entities.find? (fun (r : EntityRow) => r.name == o.entityName) = some row) :
    addObservations db (o :: rest)
      = (let existing := decodeObs row.observations
         let newObs := o.contents.filter (fun c => !(existing.contains c))
         let db1 := if newObs.isEmpty then db
                    else dbUpdateObs db o.entityName (encodeObs (existing ++ newObs))
         ((addObservations db1 rest).1,
          match (addObservations db1 rest).2 with
          | Except.error e => Except.error e
          | Except.ok results => Except.ok (⟨o.entityName, newObs⟩ :: results))) := by
  simp only [addObservations]
  rw [hfind]

theorem hasEntity_dbUpdateObs (db : DB) (n s m : Str) :
    hasEntity (dbUpdateObs db n s) m = hasEntity db m := by
  show ((db.entities.map (fun (r : EntityRow) =>
      if r.name == n then { r with observations := s } else r)).any
      (fun (r : EntityRow) => r.name == m)) = hasEntity db m
  rw [List.any_map]
  have heq : ((fun (r : EntityRow) => r.name == m) ∘
      (fun (r : EntityRow) => if r.name == n then { r with observations := s } else r))
      = (fun (r : EntityRow) => r.name == m) := by
    funext r
    show ((if r.name == n then { r with observations := s } else r).name == m)
      = (r.name == m)
    split <;> rfl
  rw [heq]
  rfl

theorem hasEntity_of_find?_some {db : DB} {n : Str} {row : EntityRow}
    (hfind : db.entities.find? (fun (r : EntityRow) => r.name == n) = some row) :
    hasEntity db n = true := by
  rw [hasEntity, List.any_eq_true]
  have hp := List.find?_some hfind
  exact ⟨row, List.mem_of_find?_eq_some hfind, hp⟩

theorem find?_eq_none_of_hasEntity {db : DB} {n : Str}
    (h : hasEntity db n = false) :
    db.entities.find? (fun (r : EntityRow) => r.name == n) = none := by
  rw [List.find?_eq_none]
  intro r hr hb
  rw [hasEntity, List.any_eq_false] at h
  exact h r hr hb

/-! ## C6: observation merge on an existing entity -/

/-- C6: on an existing entity, `addObservations` reports as added exactly the
contents minus the observations already present (order preserved), persists
the stored string as the encoding of the existing sequence extended by the
added ones, and is a complete no-op on the state when nothing is new. -/
theorem addObservations_merge (db : DB) (o : ObsInput) (row : EntityRow)
    (hrow : db.entities.find? (fun (r : EntityRow) => r.name == o.entityName) = some row) :
    (addObservations db [o]).2
      = Except.ok [⟨o.entityName,
          o.contents.filter (fun c => !((decodeObs row.observations).contains c))⟩] ∧
    (o.contents.filter
      (fun c => !((decodeObs row.observations).contains c))).Sublist o.contents ∧
    (∀ c : Str, c ∈ o.contents.filter (fun c => !((decodeObs row.observations).contains c))
       ↔ c ∈ o.contents ∧ c ∉ decodeObs row.observations) ∧
    (addObservations db [o]).1.relations = db.relations ∧
    (o.contents.filter (fun c => !((decodeObs row.observations).contains c)) ≠ [] →
      (addObservations db [o]).1.entities
        = db.entities.map (fun r =>
            if r.name == o.entityName then
              { r with observations := encodeObs (decodeObs row.observations
                  ++ o.contents.filter (fun c => !((decodeObs row.observations).contains c))) }
            else r)) ∧
    (o.contents.filter (fun c => !((decodeObs row.observations).contains c)) = [] →
      (addObservations db [o]).1 = db) := by
  rw [addObservations_cons_some db o [] row hrow]
  simp only [addObservations_nil]
  refine ⟨trivial, List.filter_sublist _, ?_, ?_, ?_, ?_⟩
  · intro c
    rw [List.mem_filter]
    constructor
    · rintro ⟨h1, h2⟩
      refine ⟨h1, fun hmem => ?_⟩
      have hc : (decodeObs row.observations).contains c = true := by
        simpa [List.contains, List.elem_iff] using hmem
      rw [hc] at h2
      simp at h2
    · rintro ⟨h1, h2⟩
      refine ⟨h1, ?_⟩
      simpa [List.contains, List.elem_iff] using h2
  · split
    · rfl
    · rfl
  · intro hne
    rw [if_neg (by simpa [List.isEmpty_iff] using hne)]
    rfl
  · intro heq
    rw [if_pos (by simpa [List.isEmpty_iff] using heq)]

/-- Witness for C6 at a concrete input: entity A has ["x"] stored and
["x", "y"] is added; the reported addition is ["y"] and the stored string
becomes the join of ["x", "y"]. -/
theorem addObservations_merge_witness :
    ((addObservations (dbUpdateObs dbA ("A".toList) ("x".toList))
        [⟨"A".toList, ["x".toList, "y".toList]⟩]).2
      = Except.ok [⟨"A".toList,
          ["x".toList, "y".toList].filter
            (fun c => !((decodeObs ("x".toList)).contains c))⟩]) ∧
    ((addObservations (dbUpdateObs dbA ("A".toList) ("x".toList))
        [⟨"A".toList, ["x".toList, "y".toList]⟩]).1.entities.map
      (fun (r : EntityRow) => r.observations) = ["x|||y".toList]) := by
  have hrow : (dbUpdateObs dbA ("A".toList) ("x".toList)).entities.find?
      (fun (r : EntityRow) => r.name == ("A".toList))
      = some ⟨1, "A".toList, "t".toList, "x".toList⟩ := by decide
  refine ⟨(addObservations_merge _ ⟨"A".toList, ["x".toList, "y".toList]⟩ _ hrow).1, ?_⟩
  decide

/-! ## C2: missing-entity error and the partial-write behavior -/

theorem addObservations_state_filter (os : List ObsInput) : ∀ db : DB,
    (addObservations db os).1
      = (addObservations db (os.filter (fun o => hasEntity db o.entityName))).1 := by
  induction os with
  | nil => intro db; rfl
  | cons o rest ih =>
    intro db
    cases hfind : db.entities.find? (fun (r : EntityRow) => r.name == o.entityName) with
    | none =>
      have hh : hasEntity db o.entityName = false := by
        rw [hasEntity, List.any_eq_false]
        rw [List.find?_eq_none] at hfind
        exact hfind
      rw [List.filter_cons_of_neg (by rw [hh]; exact Bool.false_ne_true),
        addObservations_cons_none db o rest hfind, ih db]
    | some row =>
      have hh : hasEntity db o.entityName = true := hasEntity_of_find?_some hfind
      rw [List.filter_cons_of_pos (by rw [hh]),
        addObservations_cons_some db o rest row hfind,
        addObservations_cons_some db o (rest.filter (fun o => hasEntity db o.entityName))
          row hfind]
      simp only []
      set db1 := if (o.contents.filter
          (fun c => !((decodeObs row.observations).contains c))).isEmpty then db
        else dbUpdateObs db o.entityName
          (encodeObs (decodeObs row.observations
            ++ o.contents.filter (fun c => !((decodeObs row.observations).contains c))))
        with hdb1
      have hpred : ∀ m : Str, hasEntity db1 m = hasEntity db m := by
        intro m
        rw [hdb1]
        split
        · rfl
        · exact hasEntity_dbUpdateObs db _ _ m
      have hfilter : rest.filter (fun o => hasEntity db1 o.entityName)
          = rest.filter (fun o => hasEntity db o.entityName) :=
        List.filter_congr (fun o _ => hpred o.entityName)
      rw [ih db1, hfilter]

theorem addObservations_error_first (os : List ObsInput) : ∀ (db : DB) (o₀ : ObsInput),
    os.find? (fun o => !(hasEntity db o.entityName)) = some o₀ →
    (addObservations db os).2 = Except.error o₀.entityName := by
  induction os with
  | nil => intro db o₀ h; cases h
  | cons o rest ih =>
    intro db o₀ h
    cases hh : hasEntity db o.entityName with
    | false =>
      rw [List.find?_cons_of_pos _ (by rw [hh]; rfl)] at h
      obtain rfl : o = o₀ := Option.some_inj.1 h
      rw [addObservations_cons_none db o rest (find?_eq_none_of_hasEntity hh)]
    | true =>
      rw [List.find?_cons_of_neg _ (by rw [hh]; simp)] at h
      have hsome : (db.entities.find?
          (fun (r : EntityRow) => r.name == o.entityName)).isSome := by
        rw [List.find?_isSome]
        rw [hasEntity, List.any_eq_true] at hh
        exact hh
      obtain ⟨row, hfind⟩ := Option.isSome_iff_exists.1 hsome
      rw [addObservations_cons_some db o rest row hfind]
      simp only []
      set db1 := if (o.contents.filter
          (fun c => !((decodeObs row.observations).contains c))).isEmpty then db
        else dbUpdateObs db o.entityName
          (encodeObs (decodeObs row.observations
            ++ o.contents.filter (fun c => !((decodeObs row.observations).contains c))))
        with hdb1
      have hpred : (fun (o : ObsInput) => !(hasEntity db1 o.entityName))
          = (fun (o : ObsInput) => !(hasEntity db o.entityName)) := by
        funext o
        congr 1
        rw [hdb1]
        split
        · rfl
        · exact hasEntity_dbUpdateObs db _ _ o.entityName
      have := ih db1 o₀ (by rw [hpred]; exact h)
      rw [this]

/-- C2 counterexample: with entity A present (empty observations) and B
absent, `addObservations([{A, ["x"]}, {B, ["y"]}])` fails with the
missing-entity error for B, yet A's stored observations have changed from
the empty string to "x" — a partial write. -/
theorem addObservations_counterexample :
    (addObservations dbA [⟨"A".toList, ["x".toList]⟩, ⟨"B".toList, ["y".toList]⟩]).2
      = Except.error ("B".toList) ∧
    dbA.entities.map (fun (r : EntityRow) => r.observations) = [[]] ∧
    ((addObservations dbA
        [⟨"A".toList, ["x".toList]⟩, ⟨"B".toList, ["y".toList]⟩]).1.entities.map
      (fun (r : EntityRow) => r.observations)) = ["x".toList] ∧
    ("x".toList : Str) ≠ ([] : Str) :=
  ⟨by rfl, by decide, by decide, by decide⟩

/-- C2 amended: when some requested entity name does not exist,
`addObservations` fails with an error naming the first missing entity, but
the write is partial, not absent: the final state is exactly the state
obtained by processing the entries whose entities exist (the vector-enabled
variant executes every entry; the lexical variant stops at the first missing
entry, also a partial write). -/
theorem addObservations_missing_partial (db : DB) (os : List ObsInput) (o₀ : ObsInput)
    (h : os.find? (fun o => !(hasEntity db o.entityName)) = some o₀) :
    (addObservations db os).2 = Except.error o₀.entityName ∧
    (addObservations db os).1
      = (addObservations db (os.filter (fun o => hasEntity db o.entityName))).1 :=
  ⟨addObservations_error_first os db o₀ h, addObservations_state_filter os db⟩

/-- Witness for the amended C2 at a concrete input. -/
theorem addObservations_missing_partial_witness :
    ([(⟨"A".toList, ["x".toList]⟩ : ObsInput), ⟨"B".toList, ["y".toList]⟩].find?
        (fun o => !(hasEntity dbA o.entityName))
      = some ⟨"B".toList, ["y".toList]⟩) ∧
    ((addObservations dbA [⟨"A".toList, ["x".toList]⟩, ⟨"B".toList, ["y".toList]⟩]).2
      = Except.error ("B".toList) ∧
    (addObservations dbA [⟨"A".toList, ["x".toList]⟩, ⟨"B".toList, ["y".toList]⟩]).1
      = (addObservations dbA
          ([(⟨"A".toList, ["x".toList]⟩ : ObsInput), ⟨"B".toList, ["y".toList]⟩].filter
            (fun o => hasEntity dbA o.entityName))).1) :=
  ⟨by decide,
   addObservations_missing_partial dbA
     [⟨"A".toList, ["x".toList]⟩, ⟨"B".toList, ["y".toList]⟩]
     ⟨"B".toList, ["y".toList]⟩ (by decide)⟩

/-! ## C3: the duplicate-free observation invariant -/

theorem obsInvariant_empty : ObsInvariant emptyDB :=
  fun row hrow => absurd hrow (List.not_mem_nil row)

theorem obsInvariant_dbUpdateObs (db : DB) (n : Str) (l : List Str)
    (hinv : ObsInvariant db) (hnd : l.Nodup) (hp : ∀ s ∈ l, '|' ∉ s) :
    ObsInvariant (dbUpdateObs db n (encodeObs l)) := by
  intro row' hmem'
  obtain ⟨r0, hr0, rfl⟩ := List.mem_map.1 hmem'
  by_cases hb : (r0.name == n) = true
  · rw [if_pos hb]
    exact decodeObs_encodeObs_nodup l hnd hp
  · rw [if_neg hb]
    exact hinv r0 hr0

theorem obsInvariant_createEntities (es : List Entity) : ∀ db : DB,
    ObsInvariant db →
    (∀ e ∈ es, e.observations.Nodup ∧ ∀ s ∈ e.observations, '|' ∉ s) →
    ObsInvariant (createEntities db es).1 := by
  induction es with
  | nil => intro db hinv _; exact hinv
  | cons e rest ih =>
    intro db hinv hgood
    rw [createEntities]
    split
    · exact ih db hinv (fun x hx => hgood x (List.mem_cons_of_mem _ hx))
    · apply ih _ _ (fun x hx => hgood x (List.mem_cons_of_mem _ hx))
      intro row hmem
      rcases List.mem_append.1 hmem with h | h
      · exact hinv row h
      · have hrow : row
            = ⟨db.nextId, e.name, e.entityType, encodeObs e.observations⟩ := by
          simpa using h
        subst hrow
        exact decodeObs_encodeObs_nodup e.observations
          (hgood e (List.mem_cons_self _ _)).1 (hgood e (List.mem_cons_self _ _)).2

theorem obsInvariant_addObservations (os : List ObsInput) : ∀ db : DB,
    ObsInvariant db →
    (∀ o ∈ os, o.contents.Nodup ∧ ∀ s ∈ o.contents, '|' ∉ s) →
    ObsInvariant (addObservations db os).1 := by
  induction os with
  | nil => intro db hinv _; exact hinv
  | cons o rest ih =>
    intro db hinv hgood
    cases hfind : db.entities.find? (fun (r : EntityRow) => r.name == o.entityName) with
    | none =>
      rw [addObservations_cons_none db o rest hfind]
      exact ih db hinv (fun x hx => hgood x (List.mem_cons_of_mem _ hx))
    | some row =>
      rw [addObservations_cons_some db o rest row hfind]
      simp only []
      apply ih _ _ (fun x hx => hgood x (List.mem_cons_of_mem _ hx))
      split
      · exact hinv
      · have hrowmem : row ∈ db.entities := List.mem_of_find?_eq_some hfind
        have hex := hinv row hrowmem
        have hnd : (decodeObs row.observations
            ++ o.contents.filter
              (fun c => !((decodeObs row.observations).contains c))).Nodup := by
          refine List.Nodup.append hex.1
            (List.Nodup.filter _ (hgood o (List.mem_cons_self _ _)).1) ?_
          intro x hx hxf
          have hcontains : (decodeObs row.observations).contains x = true := by
            simpa [List.contains, List.elem_iff] using hx
          have := (List.mem_filter.1 hxf).2
          rw [hcontains] at this
          simp at this
        have hp : ∀ s ∈ (decodeObs row.observations
            ++ o.contents.filter
              (fun c => !((decodeObs row.observations).contains c))), '|' ∉ s := by
          intro x hx
          rcases List.mem_append.1 hx with h | h
          · exact hex.2 x h
          · exact (hgood o (List.mem_cons_self _ _)).2 x (List.mem_filter.1 h).1
        exact obsInvariant_dbUpdateObs db o.entityName _ hinv hnd hp

theorem obsInvariant_deleteObservations (ds : List DelInput) : ∀ db : DB,
    ObsInvariant db → ObsInvariant (deleteObservations db ds) := by
  induction ds with
  | nil => intro db hinv; exact hinv
  | cons d rest ih =>
    intro db hinv
    show ObsInvariant (deleteObservations (deleteObsOne db d) rest)
    apply ih
    rw [deleteObsOne]
    split
    · exact hinv
    · rename_i row hfind
      have hrowmem : row ∈ db.entities := List.mem_of_find?_eq_some hfind
      have hex := hinv row hrowmem
      exact obsInvariant_dbUpdateObs db d.entityName _ hinv
        (List.Nodup.filter _ hex.1)
        (fun s hs => hex.2 s (List.mem_filter.1 hs).1)

theorem obsInvariant_ops (ops : List Op) : ∀ db : DB,
    ObsInvariant db → (∀ op ∈ ops, goodOp op) →
    ObsInvariant (ops.foldl applyOp db) := by
  induction ops with
  | nil => intro db hinv _; exact hinv
  | cons op rest ih =>
    intro db hinv hgood
    show ObsInvariant (rest.foldl applyOp (applyOp db op))
    refine ih (applyOp db op) ?_ (fun x hx => hgood x (List.mem_cons_of_mem _ hx))
    have hg := hgood op (List.mem_cons_self _ _)
    cases op with
    | create es => exact obsInvariant_createEntities es db hinv hg
    | addObs os => exact obsInvariant_addObservations os db hinv hg
    | delObs ds => exact obsInvariant_deleteObservations ds db hinv

/-- C3 counterexample: a single `createEntities` call whose observation list
repeats "x" stores the duplicate — duplicates inside one input list are not
rejected (the set-difference filter only compares against already-stored
observations). -/
theorem observations_nodup_counterexample :
    ∃ row ∈ (([Op.create [⟨"A".toList, "t".toList, ["x".toList, "x".toList]⟩]]).foldl
      applyOp emptyDB).entities, ¬ (decodeObs row.observations).Nodup := by
  decide

/-- C3 amended: after any sequence of `createEntities`, `addObservations`
and `deleteObservations` operations starting from the empty store, every
stored entity decodes to a duplicate-free observation sequence — provided
each individual input observation list is itself duplicate-free and no input
observation contains a pipe character.  (Duplicates inside a single input
list, or duplicates manufactured by the `"|||"` encoding, are stored.) -/
theorem observations_nodup_invariant (ops : List Op)
    (hgood : ∀ op ∈ ops, goodOp op) :
    ∀ row ∈ (ops.foldl applyOp emptyDB).entities,
      (decodeObs row.observations).Nodup :=
  fun row hrow => ((obsInvariant_ops ops emptyDB obsInvariant_empty hgood) row hrow).1

/-- Witness for the amended C3 at a concrete operation sequence. -/
theorem observations_nodup_invariant_witness :
    (∀ op ∈ [Op.create [⟨"A".toList, "t".toList, ["x".toList]⟩],
        Op.addObs [⟨"A".toList, ["y".toList, "x".toList]⟩],
        Op.delObs [⟨"A".toList, ["x".toList]⟩]], goodOp op) ∧
    (∀ row ∈ (([Op.create [⟨"A".toList, "t".toList, ["x".toList]⟩],
        Op.addObs [⟨"A".toList, ["y".toList, "x".toList]⟩],
        Op.delObs [⟨"A".toList, ["x".toList]⟩]]).foldl applyOp emptyDB).entities,
      (decodeObs row.observations).Nodup) :=
  ⟨by decide,
   observations_nodup_invariant
     [Op.create [⟨"A".toList, "t".toList, ["x".toList]⟩],
      Op.addObs [⟨"A".toList, ["y".toList, "x".toList]⟩],
      Op.delObs [⟨"A".toList, ["x".toList]⟩]] (by decide)⟩

/-! ## C1: vector-mode search -/

/-- C1 counterexample: with A (id 1, distance 2) and B (id 2, distance 1)
both indexed, the nearest-neighbor query ranks B first, but hydration
(`SELECT ... WHERE id IN (...)`) returns rows in store order, so the result
lists A before B — the returned entities are not ordered by non-decreasing
distance from the query. -/
theorem searchNodesVec_counterexample :
    (searchNodesVec vdb vdist 5).entities.map Entity.name
      = ["A".toList, "B".toList] ∧
    ((searchNodesVec vdb vdist 5).entities.map (entityDist vdb vdist))
      = [2, 1] ∧
    ¬ List.Sorted (· ≤ ·)
      ((searchNodesVec vdb vdist 5).entities.map (entityDist vdb vdist)) :=
  ⟨by decide, by decide, by decide⟩

/-- C1 amended: vector-mode `searchNodes` returns at most `k` entities; with
an empty vector index it returns the empty graph (no lexical fallback); the
nearest-neighbor ids are selected in non-decreasing distance order, but the
returned entities are the rows with those ids in store order (not distance
order). -/
theorem searchNodesVec_spec (db : DB) (dist : Nat → Int) (k : Nat)
    (hids : (db.entities.map EntityRow.id).Nodup) :
    (searchNodesVec db dist k).entities.length ≤ k ∧
    (db.vec = [] → searchNodesVec db dist k = emptyGraph) ∧
    (searchNodesVec db dist k).entities
      = (db.entities.filter
          (fun (r : EntityRow) => ((vecTopK db dist k).map Prod.fst).contains r.id)).map
        decodeEntityRow ∧
    List.Sorted (· ≤ ·) ((vecTopK db dist k).map Prod.snd) := by
  have hsorted : List.Sorted (· ≤ ·) ((vecTopK db dist k).map Prod.snd) := by
    have h1 := List.sorted_insertionSort distLE
      (db.vec.map (fun v => (v.entity_id, dist v.embedding)))
    have h2 : List.Pairwise distLE (vecTopK db dist k) :=
      List.Pairwise.sublist (List.take_sublist _ _) h1
    exact List.pairwise_map.2 h2
  have hentities : (searchNodesVec db dist k).entities
      = (db.entities.filter
          (fun (r : EntityRow) => ((vecTopK db dist k).map Prod.fst).contains r.id)).map
        decodeEntityRow := by
    by_cases hsim : (vecTopK db dist k).isEmpty = true
    · have h0 : vecTopK db dist k = [] := List.isEmpty_iff.1 hsim
      simp [searchNodesVec, h0, emptyGraph]
    · have h0 : (vecTopK db dist k).isEmpty = false := by
        simpa using hsim
      simp only [searchNodesVec, h0, Bool.false_eq_true, if_false]
  refine ⟨?_, ?_, hentities, hsorted⟩
  · rw [hentities, List.length_map]
    have hnd : ((db.entities.filter
        (fun (r : EntityRow) => ((vecTopK db dist k).map Prod.fst).contains r.id)).map
          EntityRow.id).Nodup :=
      ((List.filter_sublist _).map _).nodup hids
    have hsubset : ((db.entities.filter
        (fun (r : EntityRow) => ((vecTopK db dist k).map Prod.fst).contains r.id)).map
          EntityRow.id) ⊆ ((vecTopK db dist k).map Prod.fst) := by
      intro x hx
      obtain ⟨r, hr, rfl⟩ := List.mem_map.1 hx
      have hc := (List.mem_filter.1 hr).2
      simpa [List.contains, List.elem_iff] using hc
    have hle := (hnd.subperm hsubset).length_le
    rw [List.length_map] at hle
    refine le_trans hle ?_
    rw [List.length_map]
    exact le_trans (List.length_take_le _ _) (le_refl _)
  · intro hv
    simp [searchNodesVec, vecTopK, hv, List.insertionSort]

/-- Witness for the amended C1 at a concrete input. -/
theorem searchNodesVec_spec_witness :
    ((vdb.entities.map EntityRow.id).Nodup) ∧
    ((searchNodesVec vdb vdist 5).entities.length ≤ 5 ∧
     (vdb.vec = [] → searchNodesVec vdb vdist 5 = emptyGraph) ∧
     (searchNodesVec vdb vdist 5).entities
       = (vdb.entities.filter
           (fun (r : EntityRow) => ((vecTopK vdb vdist 5).map Prod.fst).contains r.id)).map
         decodeEntityRow ∧
     List.Sorted (· ≤ ·) ((vecTopK vdb vdist 5).map Prod.snd)) :=
  ⟨by decide, searchNodesVec_spec vdb vdist 5 (by decide)⟩

/-! ## C8: lexical-mode search -/

theorem likeMatch_pct_nil (p : Str) : likeMatch ('%' :: p) [] = likeMatch p [] := by
  simp [likeMatch]

theorem likeMatch_pct_cons (p : Str) (c : Char) (s : Str) :
    likeMatch ('%' :: p) (c :: s)
      = (likeMatch p (c :: s) || likeMatch ('%' :: p) s) := by
  simp [likeMatch]

theorem likeMatch_lit_nil (a : Char) (p : Str) (ha1 : a ≠ '%') (ha2 : a ≠ '_') :
    likeMatch (a :: p) [] = false := by
  rw [likeMatch.eq_def]
  split <;> simp_all

theorem likeMatch_lit_cons (a : Char) (p : Str) (c : Char) (s : Str)
    (ha1 : a ≠ '%') (ha2 : a ≠ '_') :
    likeMatch (a :: p) (c :: s) = ((a == c) && likeMatch p s) := by
  rw [likeMatch.eq_def]
  split <;> simp_all

theorem likeMatch_pct_all (s : Str) : likeMatch ['%'] s = true := by
  induction s with
  | nil => rw [likeMatch_pct_nil]; simp [likeMatch]
  | cons c s ih => rw [likeMatch_pct_cons]; simp [ih]

theorem likeMatch_pct_iff (p : Str) : ∀ s : Str,
    likeMatch ('%' :: p) s = true ↔ ∃ t, t <:+ s ∧ likeMatch p t = true := by
  intro s
  induction s with
  | nil =>
    rw [likeMatch_pct_nil]
    constructor
    · intro h; exact ⟨[], List.suffix_rfl, h⟩
    · rintro ⟨t, ht, hm⟩
      rw [List.suffix_nil.1 ht] at hm
      exact hm
  | cons c s ih =>
    rw [likeMatch_pct_cons, Bool.or_eq_true]
    constructor
    · rintro (h | h)
      · exact ⟨c :: s, List.suffix_rfl, h⟩
      · obtain ⟨t, ht, hm⟩ := ih.1 h
        exact ⟨t, ht.trans (List.suffix_cons c s), hm⟩
    · rintro ⟨t, ht, hm⟩
      rcases List.suffix_cons_iff.1 ht with h | h
      · subst h; exact Or.inl hm
      · exact Or.inr (ih.2 ⟨t, h, hm⟩)

theorem likeMatch_plain_pct (q : Str) (hq : ∀ c ∈ q, c ≠ '%' ∧ c ≠ '_') :
    ∀ s : Str, likeMatch (q ++ ['%']) s = true ↔ q <+: s := by
  induction q with
  | nil =>
    intro s
    simp only [List.nil_append]
    constructor
    · intro _; exact ⟨s, rfl⟩
    · intro _; exact likeMatch_pct_all s
  | cons a q ih =>
    intro s
    have ha := hq a (List.mem_cons_self _ _)
    have hrest : ∀ c ∈ q, c ≠ '%' ∧ c ≠ '_' :=
      fun c hc => hq c (List.mem_cons_of_mem _ hc)
    cases s with
    | nil =>
      rw [List.cons_append, likeMatch_lit_nil _ _ ha.1 ha.2]
      simp [ List.prefix_nil]
    | cons c s =>
      rw [List.cons_append, likeMatch_lit_cons _ _ _ _ ha.1 ha.2,
        Bool.and_eq_true, List.cons_prefix_cons, ih hrest s]
      simp [beq_iff_eq]

theorem likeMatch_plain_infix (q s : Str) (hq : ∀ c ∈ q, c ≠ '%' ∧ c ≠ '_') :
    (likeMatch ('%' :: q ++ ['%']) s = true) ↔ q <:+: s := by
  have hshape : ('%' :: q ++ ['%'] : Str) = '%' :: (q ++ ['%']) := rfl
  rw [hshape, likeMatch_pct_iff, List.infix_iff_prefix_suffix]
  constructor
  · rintro ⟨t, ht, hm⟩
    exact ⟨t, (likeMatch_plain_pct q hq t).1 hm, ht⟩
  · rintro ⟨t, hp, hs⟩
    exact ⟨t, hs, (likeMatch_plain_pct q hq t).2 hp⟩

theorem lexRowMatch_iff (q : Str) (hq : ∀ c ∈ lowerStr q, c ≠ '%' ∧ c ≠ '_')
    (r : EntityRow) :
    lexRowMatch (lowerStr q) r = true ↔
      (lowerStr q <:+: lowerStr r.name ∨ lowerStr q <:+: lowerStr r.entityType ∨
        lowerStr q <:+: lowerStr r.observations) := by
  show ((likeMatch _ _ || likeMatch _ _ || likeMatch _ _) = true) ↔ _
  rw [Bool.or_eq_true, Bool.or_eq_true,
    likeMatch_plain_infix _ _ hq, likeMatch_plain_infix _ _ hq,
    likeMatch_plain_infix _ _ hq, or_assoc]

/-- C8 counterexample: the store holds a single entity named "n" of type "t"
with observations ["a", "b"].  The query "a|||b" matches it (the stored
join is "a|||b"), although the query is a case-insensitive substring of
neither the name, the type, nor any single observation string — lexical
search matches the delimiter-joined observation string, not individual
observations. -/
theorem searchNodesLex_counterexample :
    (searchNodesLex ldb ("a|||b".toList)).entities.map Entity.name = ["n".toList] ∧
    ¬ specLexMatch ("a|||b".toList)
        ⟨"n".toList, "t".toList, ["a".toList, "b".toList]⟩ ∧
    (readGraph (dbScan ldb)).entities
      = [⟨"n".toList, "t".toList, ["a".toList, "b".toList]⟩] := by
  refine ⟨?_, by decide, by decide⟩
  simp [searchNodesLex, ldb, createEntities, emptyDB, lexRowMatch, encodeObs, pipes,
    lowerStr, likeMatch, decodeEntityRow]

/-- C8 amended: for queries containing no LIKE wildcard (`%` or `_`),
lexical `searchNodes` returns exactly the entities for which the query is a
case-insensitive substring of the entity name, the entity type, or the
stored `"|||"`-joined observation string (not of a single observation), with
no topK limit, plus exactly the relations whose two endpoints are both names
of matched entities.  (Wildcards in the query are interpreted by SQL LIKE
rather than literally.) -/
theorem searchNodesLex_spec (db : DB) (q : Str)
    (hq : ∀ c ∈ lowerStr q, c ≠ '%' ∧ c ≠ '_') :
    (∀ e : Entity, e ∈ (searchNodesLex db q).entities ↔
      ∃ row ∈ db.entities,
        (lowerStr q <:+: lowerStr row.name ∨ lowerStr q <:+: lowerStr row.entityType ∨
          lowerStr q <:+: lowerStr row.observations) ∧ e = decodeEntityRow row) ∧
    (∀ rel : Relation, rel ∈ (searchNodesLex db q).relations ↔
      rel ∈ db.relations ∧
        rel.fromEntity ∈ (searchNodesLex db q).entities.map Entity.name ∧
        rel.toEntity ∈ (searchNodesLex db q).entities.map Entity.name) := by
  have hent : (searchNodesLex db q).entities
      = (db.entities.filter (lexRowMatch (lowerStr q))).map decodeEntityRow := rfl
  have hnames : (searchNodesLex db q).entities.map Entity.name
      = (db.entities.filter (lexRowMatch (lowerStr q))).map EntityRow.name := by
    rw [hent, List.map_map]
    rfl
  constructor
  · intro e
    rw [hent]
    constructor
    · intro hmem
      obtain ⟨row, hrow, rfl⟩ := List.mem_map.1 hmem
      have hf := List.mem_filter.1 hrow
      exact ⟨row, hf.1, (lexRowMatch_iff q hq row).1 hf.2, rfl⟩
    · rintro ⟨row, hrow, hm, rfl⟩
      exact List.mem_map_of_mem _
        (List.mem_filter.2 ⟨hrow, (lexRowMatch_iff q hq row).2 hm⟩)
  · intro rel
    have hrels : (searchNodesLex db q).relations
        = (if ((db.entities.filter (lexRowMatch (lowerStr q))).map
              EntityRow.name).isEmpty then []
           else db.relations.filter (fun rl =>
             ((db.entities.filter (lexRowMatch (lowerStr q))).map
               EntityRow.name).contains rl.fromEntity
             && ((db.entities.filter (lexRowMatch (lowerStr q))).map
               EntityRow.name).contains rl.toEntity)) := rfl
    rw [hrels, hnames]
    by_cases hempty : ((db.entities.filter (lexRowMatch (lowerStr q))).map
        EntityRow.name).isEmpty = true
    · rw [if_pos hempty]
      have h0 := List.isEmpty_iff.1 hempty
      rw [h0]
      simp
    · rw [if_neg hempty]
      rw [List.mem_filter, Bool.and_eq_true]
      constructor
      · rintro ⟨h1, h2, h3⟩
        exact ⟨h1, by simpa [List.contains, List.elem_iff] using h2,
          by simpa [List.contains, List.elem_iff] using h3⟩
      · rintro ⟨h1, h2, h3⟩
        exact ⟨h1, by simpa [List.contains, List.elem_iff] using h2,
          by simpa [List.contains, List.elem_iff] using h3⟩

/-- Witness for the amended C8 at a concrete input. -/
theorem searchNodesLex_spec_witness :
    (∀ c ∈ lowerStr ("a".toList), c ≠ '%' ∧ c ≠ '_') ∧
    ((⟨"n".toList, "t".toList, ["a".toList, "b".toList]⟩ : Entity)
        ∈ (searchNodesLex ldb ("a".toList)).entities ↔
      ∃ row ∈ ldb.entities,
        (lowerStr ("a".toList) <:+: lowerStr row.name ∨
          lowerStr ("a".toList) <:+: lowerStr row.entityType ∨
          lowerStr ("a".toList) <:+: lowerStr row.observations) ∧
        (⟨"n".toList, "t".toList, ["a".toList, "b".toList]⟩ : Entity)
          = decodeEntityRow row) :=
  ⟨by decide,
   (searchNodesLex_spec ldb ("a".toList) (by decide)).1
     ⟨"n".toList, "t".toList, ["a".toList, "b".toList]⟩⟩

end QMemory
